import Mathlib

/-!
Verification of the snake-game core engine (`game.js` / `effects.js`).

The mutable module state of the JS engine is embedded as an explicit
`EngineState` record, and each engine function becomes a pure Lean function
on that record.  `Math.random()` draws are modelled by an explicit stream
`draws : Nat → Cell` of drawn grid cells.  Domain events emitted through
`triggerEvent` are returned as an explicit event list.  DOM / overlay /
localStorage side effects (`updateScoreDisplay`, `showGameOverOverlay`,
high-score persistence) are outside the modelled engine state.
-/

namespace Snake

/-- Configuration constants from the top of the engine file. -/
def TICK_MS : Int := 150

/-- Fastest allowed tick interval (ms). -/
def TICK_MIN_MS : Int := 60

/-- Interval reduction per difficulty level (ms). -/
def TICK_STEP_MS : Int := 10

/-- Food items consumed per difficulty level. -/
def TICK_LEVEL_EVERY : Nat := 5

/-- A grid cell `{x, y}`.  Coordinates are `Int` because a computed new head
may lie at `-1` before the wall-collision check. -/
structure Cell where
  x : Int
  y : Int
deriving DecidableEq, Repr

instance : Inhabited Cell := ⟨⟨0, 0⟩⟩

/-- Movement directions. -/
inductive Dir where
  | up
  | down
  | left
  | right
deriving DecidableEq, Repr

/-- The `opposites` lookup table in `setDirection`. -/
def opposite : Dir → Dir
  | Dir.up => Dir.down
  | Dir.down => Dir.up
  | Dir.left => Dir.right
  | Dir.right => Dir.left

/-- Game lifecycle phases: `start | playing | paused | gameover`. -/
inductive Phase where
  | start
  | playing
  | paused
  | gameover
deriving DecidableEq, Repr

/-- Domain events delivered through `triggerEvent`. -/
inductive Event where
  | eat (score : Nat)
  | gameover (score : Nat)
deriving DecidableEq, Repr

/-- The engine's module-level mutable state (grid dimensions, snake, direction
double-buffer, food, score, current tick interval, phase). -/
structure EngineState where
  gridW : Nat
  gridH : Nat
  snake : List Cell
  direction : Dir
  nextDirection : Dir
  food : Option Cell
  score : Nat
  currentTickMs : Int
  gameState : Phase
deriving DecidableEq, Repr

/-- JS `isOnSnake(pos)`: true iff the position overlaps any snake segment. -/
def isOnSnake (snake : List Cell) (pos : Cell) : Bool :=
  snake.any (fun s => s.x == pos.x && s.y == pos.y)

/-- The body of `spawnFood`'s do-while loop.  `attempts` is the number of
draws already made (the JS counter before the next draw), `fuel` bounds the
recursion; `spawnFood` supplies `fuel = maxA`, which is enough for the loop
guard `attempts + 1 < maxA` to be the only thing that stops the recursion. -/
def spawnFoodAux (snake : List Cell) (draws : Nat → Cell) (maxA : Nat) :
    Nat → Nat → Cell
  | attempts, 0 => draws attempts
  | attempts, fuel + 1 =>
    if isOnSnake snake (draws attempts) = true ∧ attempts + 1 < maxA then
      spawnFoodAux snake draws maxA (attempts + 1) fuel
    else draws attempts

/-- JS `spawnFood()`: rejection sampling over the grid, re-drawing while the
drawn cell is on the snake, capped at `gridW * gridH` attempts; the last
draw is accepted unconditionally when the cap is reached. -/
def spawnFood (snake : List Cell) (gridW gridH : Nat) (draws : Nat → Cell) : Cell :=
  spawnFoodAux snake draws (gridW * gridH) 0 (gridW * gridH)

/-- JS `resetSnake()`: centered 3-segment snake facing right, zero score, base
tick interval, fresh food placement (JS sets `food = null`, then `spawnFood`
overwrites it, so the net effect is the spawned cell). -/
def resetSnake (draws : Nat → Cell) (s : EngineState) : EngineState :=
  let midX : Int := (s.gridW / 2 : Nat)
  let midY : Int := (s.gridH / 2 : Nat)
  let snake1 : List Cell := [⟨midX, midY⟩, ⟨midX - 1, midY⟩, ⟨midX - 2, midY⟩]
  { s with
    snake := snake1
    direction := Dir.right
    nextDirection := Dir.right
    score := 0
    currentTickMs := TICK_MS
    food := some (spawnFood snake1 s.gridW s.gridH draws) }

/-- The `switch (direction)` translating the head one cell. -/
def moveCell (d : Dir) (c : Cell) : Cell :=
  match d with
  | Dir.up => { c with y := c.y - 1 }
  | Dir.down => { c with y := c.y + 1 }
  | Dir.left => { c with x := c.x - 1 }
  | Dir.right => { c with x := c.x + 1 }

/-- The progressive-difficulty computation inside `gameTick`:
`currentTickMs = Math.max(TICK_MIN_MS, TICK_MS - level * TICK_STEP_MS)` with
`level = Math.floor(score / TICK_LEVEL_EVERY)`. -/
def tickInterval (score : Nat) : Int :=
  max TICK_MIN_MS (TICK_MS - (score / TICK_LEVEL_EVERY : Nat) * TICK_STEP_MS)

/-- JS `gameTick()`: commit the buffered direction, compute the new head, check
wall then self collision (each ending in `gameover` with one event), then
move/grow the snake, score and respawn food on eating.
A JS call with an empty snake would throw on `snake[0]`; here `List.headI`
supplies a default, and the tick theorems assume `snake ≠ []` (an invariant
of all reachable states, proved below). -/
def gameTick (draws : Nat → Cell) (s : EngineState) : EngineState × List Event :=
  let direction := s.nextDirection
  let head := s.snake.headI
  let newHead := moveCell direction head
  if newHead.x < 0 ∨ (s.gridW : Int) ≤ newHead.x ∨
      newHead.y < 0 ∨ (s.gridH : Int) ≤ newHead.y then
    ({ s with direction := direction, gameState := Phase.gameover },
      [Event.gameover s.score])
  else if isOnSnake s.snake newHead then
    ({ s with direction := direction, gameState := Phase.gameover },
      [Event.gameover s.score])
  else
    let ateFood : Bool :=
      match s.food with
      | some f => newHead == f
      | none => false
    let snake1 := newHead :: s.snake
    if ateFood then
      let score1 := s.score + 1
      ({ s with
          direction := direction
          snake := snake1
          score := score1
          currentTickMs := tickInterval score1
          food := some (spawnFood snake1 s.gridW s.gridH draws) },
        [Event.eat score1])
    else
      ({ s with direction := direction, snake := snake1.dropLast }, [])

/-- JS `setDirection(dir)`: ignored unless playing; ignored when `dir` is the
exact opposite of the committed direction; otherwise buffers `dir`. -/
def setDirection (d : Dir) (s : EngineState) : EngineState :=
  if s.gameState ≠ Phase.playing then s
  else if d = opposite s.direction then s
  else { s with nextDirection := d }

/-! ### Engine operations and reachable states

The public surface used by the render loop / input adapter: `gameTick` is
invoked by `renderLoop` only while `gameState === 'playing'`;
`setDirection` and `resetSnake` are exported on `window.SnakeGame`;
`startGame` / `resumeGame` / `restartGame` / `pauseGame` set the phase
(`restartGame` = `resetSnake` followed by `gameState = 'playing'`, which the
relation covers as `reset` followed by `toPlaying`). -/

/-- One observable engine operation. -/
inductive Step : EngineState → EngineState → Prop
  | tick (draws : Nat → Cell) (s : EngineState) :
      s.gameState = Phase.playing → Step s (gameTick draws s).1
  | setDir (d : Dir) (s : EngineState) : Step s (setDirection d s)
  | reset (draws : Nat → Cell) (s : EngineState) : Step s (resetSnake draws s)
  | toPlaying (s : EngineState) : Step s { s with gameState := Phase.playing }
  | toPaused (s : EngineState) : Step s { s with gameState := Phase.paused }

/-- States reachable from a freshly reset engine (`setupGame` calls
`resetSnake` before the loop starts) via the engine's operations. -/
inductive Reachable : EngineState → Prop
  | init (draws : Nat → Cell) (s0 : EngineState) : Reachable (resetSnake draws s0)
  | step {s s' : EngineState} : Reachable s → Step s s' → Reachable s'

/-! ### Effects: screen shake (`effects.js`)

The shake state variables of `effects.js` in one record; the two
`Math.random()` calls of `updateShake` become explicit parameters
`rx ry ∈ [-1, 1]` (the value of `Math.random() * 2 - 1`).  JS numbers are
embedded as rationals. -/

/-- Record of `shakeRemaining / shakeDuration / shakeAmplitude / shakeX / shakeY`. -/
structure ShakeState where
  remaining : ℚ
  duration : ℚ
  amplitude : ℚ
  x : ℚ
  y : ℚ
deriving DecidableEq, Repr

/-- JS `startShake(duration, amplitude)`. -/
def startShake (duration amplitude : ℚ) (s : ShakeState) : ShakeState :=
  { s with remaining := duration, duration := duration, amplitude := amplitude }

/-- JS `updateShake(dt)`, with the frame's two random draws `rx ry` passed in as
`Math.random() * 2 - 1`. -/
def updateShake (rx ry dt : ℚ) (s : ShakeState) : ShakeState :=
  if s.remaining ≤ 0 then { s with x := 0, y := 0 }
  else
    let rem := max 0 (s.remaining - dt)
    let intensity := rem / s.duration
    let amp := s.amplitude * intensity
    { s with remaining := rem, x := rx * amp, y := ry * amp }

/-- A rendered frame as seen by `updateShake`: the two random draws and the
(clamped) elapsed `dt` of that frame. -/
structure Frame where
  rx : ℚ
  ry : ℚ
  dt : ℚ
deriving DecidableEq, Repr

/-- Run `updateShake` over a sequence of frames (one call per frame, as the
`'background'` layer of `SnakeEffects.render` does). -/
def runShake (fs : List Frame) (s : ShakeState) : ShakeState :=
  fs.foldl (fun st f => updateShake f.rx f.ry f.dt st) s

/-! ### `getState` aliasing model

`getState()` returns `{ snake: snake, food: food, score: score, ... }`.
The object literal copies the *reference* held by the module variable
`snake`, not the array it points to.  To express this, array objects live in
an explicit store indexed by addresses, and the engine / snapshot records
hold addresses where JS holds array references; scalar fields are by value. -/

/-- Store of JS array objects: address ↦ current contents. -/
structure Store where
  arr : Nat → List Cell

/-- Mutate the array object at address `a` (e.g. a `push` through any
reference to it). -/
def Store.write (σ : Store) (a : Nat) (xs : List Cell) : Store :=
  ⟨fun a' => if a' = a then xs else σ.arr a'⟩

/-- The engine's module variables, with the `snake` array held by reference. -/
structure EngineRefs where
  snakeAddr : Nat
  food : Option Cell
  score : Nat
  gameState : Phase
  direction : Dir
  cellSize : Nat
  gridW : Nat
  gridH : Nat

/-- A snapshot returned by `getState`, as the caller receives it. -/
structure Snapshot where
  snakeAddr : Nat
  food : Option Cell
  score : Nat
  gameState : Phase
  direction : Dir
  cellSize : Nat
  gridW : Nat
  gridH : Nat

/-- JS `getState()`: builds the snapshot object field by field; the `snake`
field receives the same array reference the engine holds. -/
def getState (e : EngineRefs) : Snapshot :=
  { snakeAddr := e.snakeAddr
    food := e.food
    score := e.score
    gameState := e.gameState
    direction := e.direction
    cellSize := e.cellSize
    gridW := e.gridW
    gridH := e.gridH }

/-- What the engine reads as its snake body under store `σ`. -/
def engineSnake (σ : Store) (e : EngineRefs) : List Cell :=
  σ.arr e.snakeAddr

/-- The structural invariant of the engine: non-empty snake with pairwise
distinct cells. -/
def Inv (s : EngineState) : Prop :=
  1 ≤ s.snake.length ∧ s.snake.Nodup

/-! ### Sample states and streams used by witnesses and counterexamples -/

/-- A draw stream for witnesses. -/
def sampleDraws : Nat → Cell := fun _ => ⟨0, 0⟩

/-- Playing state whose head sits on the right edge moving right. -/
def sampleWall : EngineState :=
  { gridW := 10, gridH := 10, snake := [⟨9, 5⟩, ⟨8, 5⟩, ⟨7, 5⟩],
    direction := Dir.right, nextDirection := Dir.right, food := some ⟨0, 0⟩,
    score := 3, currentTickMs := 150, gameState := Phase.playing }

/-- Playing state in mid-grid, food directly ahead. -/
def sampleEat : EngineState :=
  { gridW := 10, gridH := 10, snake := [⟨5, 5⟩, ⟨4, 5⟩, ⟨3, 5⟩],
    direction := Dir.right, nextDirection := Dir.right, food := some ⟨6, 5⟩,
    score := 4, currentTickMs := 150, gameState := Phase.playing }

/-- Playing state in mid-grid, food elsewhere. -/
def sampleMove : EngineState :=
  { gridW := 10, gridH := 10, snake := [⟨5, 5⟩, ⟨4, 5⟩, ⟨3, 5⟩],
    direction := Dir.right, nextDirection := Dir.right, food := some ⟨0, 0⟩,
    score := 4, currentTickMs := 150, gameState := Phase.playing }

/-- A paused state. -/
def samplePaused : EngineState :=
  { gridW := 10, gridH := 10, snake := [⟨5, 5⟩, ⟨4, 5⟩, ⟨3, 5⟩],
    direction := Dir.right, nextDirection := Dir.right, food := some ⟨0, 0⟩,
    score := 4, currentTickMs := 150, gameState := Phase.paused }

/-- Eating state used to refute C2 as stated: every random draw of the tick
lands on the cell the head is about to occupy. -/
def c2State : EngineState :=
  { gridW := 10, gridH := 10, snake := [⟨5, 5⟩, ⟨4, 5⟩, ⟨3, 5⟩],
    direction := Dir.right, nextDirection := Dir.right, food := some ⟨6, 5⟩,
    score := 0, currentTickMs := 150, gameState := Phase.playing }

/-- Draw stream that always returns the post-growth head cell. -/
def c2Draws : Nat → Cell := fun _ => ⟨6, 5⟩

/-- Snake filling an entire 2×2 grid, for the C8 witness. -/
def c8Snake : List Cell := [⟨0, 0⟩, ⟨1, 0⟩, ⟨0, 1⟩, ⟨1, 1⟩]

/-- Draw stream cycling through the 2×2 grid. -/
def c8Draws : Nat → Cell := fun i => ⟨(i % 2 : Nat), (i / 2 % 2 : Nat)⟩

/-- Base pre-initialisation state for the C7 witness. -/
def c7Base : EngineState :=
  { gridW := 10, gridH := 10, snake := [], direction := Dir.right,
    nextDirection := Dir.right, food := none, score := 0, currentTickMs := 150,
    gameState := Phase.start }

/-- Frame list for the C9 witness, consuming the whole duration. -/
def c9fs1 : List Frame := [⟨1/2, 1/2, 3⟩]

/-- First frame after expiry for the C9 witness. -/
def c9f : Frame := ⟨1, 1, 1⟩

/-- Further frames after expiry for the C9 witness. -/
def c9fs2 : List Frame := [⟨0, 0, 1⟩]

/-- Pre-`startShake` shake state (junk offsets) for the C9 witness. -/
def c9s0 : ShakeState := ⟨5, 5, 7, 1, 1⟩

/-- Mid-shake state for the C9 bound witness. -/
def c9sb : ShakeState := ⟨2, 4, 3, 0, 0⟩

/-- Engine reference state for the C3 aliasing demonstration. -/
def c3Engine : EngineRefs :=
  { snakeAddr := 0, food := some ⟨0, 0⟩, score := 0, gameState := Phase.playing,
    direction := Dir.right, cellSize := 20, gridW := 10, gridH := 10 }

/-- Store holding the engine's snake array at address 0. -/
def c3Store : Store := ⟨fun _ => [⟨5, 5⟩, ⟨4, 5⟩, ⟨3, 5⟩]⟩

/-! ### Basic lemmas -/

theorem isOnSnake_iff (l : List Cell) (p : Cell) : isOnSnake l p = true ↔ p ∈ l := by
  unfold isOnSnake
  simp only [List.any_eq_true, Bool.and_eq_true, beq_iff_eq]
  constructor
  · rintro ⟨c, hc, hx, hy⟩
    have hcp : c = p := by cases c; cases p; simp_all
    exact hcp ▸ hc
  · intro hp
    exact ⟨p, hp, rfl, rfl⟩

theorem isOnSnake_eq_false_iff (l : List Cell) (p : Cell) :
    isOnSnake l p = false ↔ p ∉ l := by
  rw [← Bool.not_eq_true, not_iff_not]
  exact isOnSnake_iff l p

/-- Wall-collision branch of `gameTick`: when the new head is out of bounds,
the phase becomes `gameover`, exactly one `gameover{score}` event fires, and
nothing else changes (no hypothesis about self-collision is needed: the wall
check runs first). -/
theorem gameTick_wall (draws : Nat → Cell) (s : EngineState)
    (h : (moveCell s.nextDirection s.snake.headI).x < 0 ∨
        (s.gridW : Int) ≤ (moveCell s.nextDirection s.snake.headI).x ∨
        (moveCell s.nextDirection s.snake.headI).y < 0 ∨
        (s.gridH : Int) ≤ (moveCell s.nextDirection s.snake.headI).y) :
    gameTick draws s =
      ({ s with direction := s.nextDirection, gameState := Phase.gameover },
        [Event.gameover s.score]) := by
  simp only [gameTick]
  rw [if_pos h]

/-- Self-collision branch of `gameTick`. -/
theorem gameTick_self (draws : Nat → Cell) (s : EngineState)
    (h : ¬((moveCell s.nextDirection s.snake.headI).x < 0 ∨
        (s.gridW : Int) ≤ (moveCell s.nextDirection s.snake.headI).x ∨
        (moveCell s.nextDirection s.snake.headI).y < 0 ∨
        (s.gridH : Int) ≤ (moveCell s.nextDirection s.snake.headI).y))
    (hself : isOnSnake s.snake (moveCell s.nextDirection s.snake.headI) = true) :
    gameTick draws s =
      ({ s with direction := s.nextDirection, gameState := Phase.gameover },
        [Event.gameover s.score]) := by
  simp only [gameTick]
  rw [if_neg h, if_pos hself]

/-- Eating branch of `gameTick`: in bounds, no self collision, new head on
the food cell. -/
theorem gameTick_eat (draws : Nat → Cell) (s : EngineState) (f : Cell)
    (h : ¬((moveCell s.nextDirection s.snake.headI).x < 0 ∨
        (s.gridW : Int) ≤ (moveCell s.nextDirection s.snake.headI).x ∨
        (moveCell s.nextDirection s.snake.headI).y < 0 ∨
        (s.gridH : Int) ≤ (moveCell s.nextDirection s.snake.headI).y))
    (hself : isOnSnake s.snake (moveCell s.nextDirection s.snake.headI) = false)
    (hf : s.food = some f)
    (hhit : moveCell s.nextDirection s.snake.headI = f) :
    gameTick draws s =
      ({ s with
          direction := s.nextDirection
          snake := moveCell s.nextDirection s.snake.headI :: s.snake
          score := s.score + 1
          currentTickMs := tickInterval (s.score + 1)
          food := some (spawnFood (moveCell s.nextDirection s.snake.headI :: s.snake)
            s.gridW s.gridH draws) },
        [Event.eat (s.score + 1)]) := by
  have hself' : isOnSnake s.snake f = false := hhit ▸ hself
  simp only [gameTick]
  rw [if_neg h, hf, hhit]
  simp [hself']

/-- Non-eating move branch of `gameTick`: in bounds, no self collision, new
head not on the food cell (or no food). -/
theorem gameTick_move (draws : Nat → Cell) (s : EngineState)
    (h : ¬((moveCell s.nextDirection s.snake.headI).x < 0 ∨
        (s.gridW : Int) ≤ (moveCell s.nextDirection s.snake.headI).x ∨
        (moveCell s.nextDirection s.snake.headI).y < 0 ∨
        (s.gridH : Int) ≤ (moveCell s.nextDirection s.snake.headI).y))
    (hself : isOnSnake s.snake (moveCell s.nextDirection s.snake.headI) = false)
    (hmiss : ∀ f, s.food = some f → moveCell s.nextDirection s.snake.headI ≠ f) :
    gameTick draws s =
      ({ s with
          direction := s.nextDirection
          snake := (moveCell s.nextDirection s.snake.headI :: s.snake).dropLast },
        []) := by
  simp only [gameTick]
  rw [if_neg h]
  simp only [hself, Bool.false_eq_true, if_false]
  cases hf : s.food with
  | none => simp
  | some f =>
    have : (moveCell s.nextDirection s.snake.headI == f) = false :=
      beq_eq_false_iff_ne.mpr (hmiss f hf)
    simp [this]

/-! ### `spawnFood` loop lemmas -/

/-- The loop result is always one of the draws, at an index below the
attempt cap (or the very first draw when the cap is `0`). -/
theorem spawnFoodAux_exists (snake : List Cell) (draws : Nat → Cell) (maxA : Nat) :
    ∀ fuel attempts, ∃ k, attempts ≤ k ∧ (k < maxA ∨ k = attempts) ∧
      spawnFoodAux snake draws maxA attempts fuel = draws k := by
  intro fuel
  induction fuel with
  | zero => exact fun attempts => ⟨attempts, le_refl _, Or.inr rfl, rfl⟩
  | succ n ih =>
    intro attempts
    by_cases hc : isOnSnake snake (draws attempts) = true ∧ attempts + 1 < maxA
    · obtain ⟨k, hk1, hk2, hk3⟩ := ih (attempts + 1)
      refine ⟨k, by omega, ?_, ?_⟩
      · rcases hk2 with h | h
        · exact Or.inl h
        · exact Or.inl (h ▸ hc.2)
      · simp only [spawnFoodAux]
        rw [if_pos hc]
        exact hk3
    · refine ⟨attempts, le_refl _, Or.inr rfl, ?_⟩
      simp only [spawnFoodAux]
      rw [if_neg hc]

/-- When every draw up to the cap lands on the snake, the loop runs through
all of them and returns the last one. -/
theorem spawnFoodAux_exhaust (snake : List Cell) (draws : Nat → Cell) (maxA : Nat)
    (hall : ∀ i, i < maxA → isOnSnake snake (draws i) = true) :
    ∀ fuel attempts, attempts + fuel = maxA → attempts < maxA →
      spawnFoodAux snake draws maxA attempts fuel = draws (maxA - 1) := by
  intro fuel
  induction fuel with
  | zero => intro attempts h1 h2; omega
  | succ n ih =>
    intro attempts h1 h2
    have hocc := hall attempts h2
    by_cases h3 : attempts + 1 < maxA
    · simp only [spawnFoodAux]
      rw [if_pos ⟨hocc, h3⟩]
      exact ih (attempts + 1) (by omega) h3
    · have ha : attempts = maxA - 1 := by omega
      simp only [spawnFoodAux]
      rw [if_neg (fun hc => h3 hc.2), ha]

/-- If the loop (given enough fuel to reach the cap) returns a cell on the
snake, then every draw from the current index up to the cap was on the
snake. -/
theorem spawnFoodAux_occupied (snake : List Cell) (draws : Nat → Cell) (maxA : Nat) :
    ∀ fuel attempts, maxA ≤ attempts + fuel →
      isOnSnake snake (spawnFoodAux snake draws maxA attempts fuel) = true →
      ∀ i, attempts ≤ i → i < maxA → isOnSnake snake (draws i) = true := by
  intro fuel
  induction fuel with
  | zero => intro attempts hma _ i hi1 hi2; omega
  | succ n ih =>
    intro attempts hma hres i hi1 hi2
    by_cases hc : isOnSnake snake (draws attempts) = true ∧ attempts + 1 < maxA
    · simp only [spawnFoodAux] at hres
      rw [if_pos hc] at hres
      rcases Nat.eq_or_lt_of_le hi1 with he | hlt
      · exact he ▸ hc.1
      · exact ih (attempts + 1) (by omega) hres i hlt hi2
    · simp only [spawnFoodAux] at hres
      rw [if_neg hc] at hres
      have h4 : ¬(attempts + 1 < maxA) := fun hlt => hc ⟨hres, hlt⟩
      have hi : i = attempts := by omega
      exact hi ▸ hres

/-- Function `spawnFood` returns one of its first `gridW * gridH` draws. -/
theorem spawnFood_exists (snake : List Cell) (gridW gridH : Nat) (draws : Nat → Cell)
    (h : 1 ≤ gridW * gridH) :
    ∃ k, k < gridW * gridH ∧ spawnFood snake gridW gridH draws = draws k := by
  obtain ⟨k, hk1, hk2, hk3⟩ :=
    spawnFoodAux_exists snake draws (gridW * gridH) (gridW * gridH) 0
  refine ⟨k, ?_, hk3⟩
  rcases hk2 with h' | h'
  · exact h'
  · omega

/-- On exhaustion `spawnFood` accepts the last draw. -/
theorem spawnFood_exhaust (snake : List Cell) (gridW gridH : Nat) (draws : Nat → Cell)
    (h : 1 ≤ gridW * gridH)
    (hall : ∀ i, i < gridW * gridH → isOnSnake snake (draws i) = true) :
    spawnFood snake gridW gridH draws = draws (gridW * gridH - 1) :=
  spawnFoodAux_exhaust snake draws (gridW * gridH) hall (gridW * gridH) 0
    (by omega) (by omega)

/-- As soon as one of the first `gridW * gridH` draws is off the snake,
`spawnFood` returns a cell that is off the snake. -/
theorem spawnFood_not_on_snake (snake : List Cell) (gridW gridH : Nat)
    (draws : Nat → Cell)
    (hfree : ∃ i, i < gridW * gridH ∧ isOnSnake snake (draws i) = false) :
    isOnSnake snake (spawnFood snake gridW gridH draws) = false := by
  obtain ⟨i, hi, hfree⟩ := hfree
  by_contra hcon
  rw [Bool.not_eq_false] at hcon
  have := spawnFoodAux_occupied snake draws (gridW * gridH) (gridW * gridH) 0
    (by omega) hcon i (Nat.zero_le i) hi
  rw [this] at hfree
  exact Bool.true_eq_false.mp hfree

/-! ### Engine invariant -/

theorem cellTriple_nodup (mx my : Int) :
    ([⟨mx, my⟩, ⟨mx - 1, my⟩, ⟨mx - 2, my⟩] : List Cell).Nodup := by
  simp only [List.nodup_cons, List.mem_cons, List.mem_singleton,
    List.not_mem_nil, or_false, not_or, List.nodup_nil, and_true, Cell.mk.injEq,
    not_and, not_false_iff]
  constructor
  · constructor <;> intro h <;> omega
  · intro h
    omega

theorem inv_resetSnake (draws : Nat → Cell) (s : EngineState) :
    Inv (resetSnake draws s) := by
  refine ⟨by simp [resetSnake], ?_⟩
  have h2 : (resetSnake draws s).snake =
      [⟨(s.gridW / 2 : Nat), (s.gridH / 2 : Nat)⟩,
        ⟨(s.gridW / 2 : Nat) - 1, (s.gridH / 2 : Nat)⟩,
        ⟨(s.gridW / 2 : Nat) - 2, (s.gridH / 2 : Nat)⟩] := rfl
  rw [h2]
  exact cellTriple_nodup _ _

theorem inv_gameTick (draws : Nat → Cell) (s : EngineState) (h : Inv s) :
    Inv (gameTick draws s).1 := by
  obtain ⟨hlen, hnodup⟩ := h
  simp only [gameTick]
  split
  · exact ⟨hlen, hnodup⟩
  · split
    · exact ⟨hlen, hnodup⟩
    · rename_i hwall hself
      have hmem : moveCell s.nextDirection s.snake.headI ∉ s.snake := by
        rw [← isOnSnake_eq_false_iff]
        exact Bool.not_eq_true _ |>.mp hself
      split
      · exact ⟨by simp, List.nodup_cons.mpr ⟨hmem, hnodup⟩⟩
      · refine ⟨?_, ?_⟩
        · simp only [List.length_dropLast, List.length_cons]
          omega
        · exact (List.nodup_cons.mpr ⟨hmem, hnodup⟩).sublist (List.dropLast_sublist _)

theorem inv_setDirection (d : Dir) (s : EngineState) (h : Inv s) :
    Inv (setDirection d s) := by
  unfold setDirection
  split_ifs <;> exact h

theorem step_inv : ∀ {s s' : EngineState}, Step s s' → Inv s → Inv s'
  | _, _, Step.tick draws s _, h => inv_gameTick draws s h
  | _, _, Step.setDir d s, h => inv_setDirection d s h
  | _, _, Step.reset draws s, _ => inv_resetSnake draws s
  | _, _, Step.toPlaying _, h => h
  | _, _, Step.toPaused _, h => h

theorem reachable_inv {s : EngineState} (h : Reachable s) : Inv s := by
  induction h with
  | init draws s0 => exact inv_resetSnake draws s0
  | step _ hstep ih => exact step_inv hstep ih

/-! ### Shake lemmas -/

theorem runShake_cons (f : Frame) (fs : List Frame) (s : ShakeState) :
    runShake (f :: fs) s = runShake fs (updateShake f.rx f.ry f.dt s) := rfl

theorem updateShake_expired (rx ry dt : ℚ) (s : ShakeState) (h : s.remaining ≤ 0) :
    updateShake rx ry dt s = { s with x := 0, y := 0 } := by
  unfold updateShake
  rw [if_pos h]

theorem updateShake_active (rx ry dt : ℚ) (s : ShakeState) (h : ¬s.remaining ≤ 0) :
    updateShake rx ry dt s =
      { s with
        remaining := max 0 (s.remaining - dt)
        x := rx * (s.amplitude * (max 0 (s.remaining - dt) / s.duration))
        y := ry * (s.amplitude * (max 0 (s.remaining - dt) / s.duration)) } := by
  unfold updateShake
  rw [if_neg h]

/-- Once expired (with the offset already zeroed), every further frame keeps
the shake expired and the offset at `(0, 0)`. -/
theorem runShake_stays_zero (fs : List Frame) (s : ShakeState)
    (h : s.remaining ≤ 0) (hx : s.x = 0) (hy : s.y = 0) :
    (runShake fs s).remaining ≤ 0 ∧ (runShake fs s).x = 0 ∧ (runShake fs s).y = 0 := by
  induction fs generalizing s with
  | nil => exact ⟨h, hx, hy⟩
  | cons f fs ih =>
    rw [runShake_cons, updateShake_expired _ _ _ _ h]
    exact ih _ h rfl rfl

/-- After a run of frames with nonnegative elapsed times, the remaining
shake time is either already expired or has decreased by the total elapsed
time. -/
theorem runShake_remaining (fs : List Frame) (s : ShakeState)
    (hdt : ∀ f ∈ fs, 0 ≤ f.dt) :
    (runShake fs s).remaining ≤ 0 ∨
      (runShake fs s).remaining ≤ s.remaining - (fs.map Frame.dt).sum := by
  induction fs generalizing s with
  | nil => exact Or.inr (by simp [runShake])
  | cons f fs ih =>
    have hdt0 : 0 ≤ f.dt := hdt f (List.mem_cons_self f fs)
    have hdts : ∀ g ∈ fs, 0 ≤ g.dt := fun g hg => hdt g (List.mem_cons_of_mem f hg)
    have hsum : 0 ≤ (fs.map Frame.dt).sum := by
      apply List.sum_nonneg
      intro q hq
      obtain ⟨g, hg, rfl⟩ := List.mem_map.mp hq
      exact hdts g hg
    rw [runShake_cons]
    have hup : (updateShake f.rx f.ry f.dt s).remaining =
        if s.remaining ≤ 0 then s.remaining else max 0 (s.remaining - f.dt) := by
      unfold updateShake
      split_ifs with h0 <;> rfl
    rcases ih (updateShake f.rx f.ry f.dt s) hdts with hc | hc
    · exact Or.inl hc
    · rw [hup] at hc
      by_cases hrem : s.remaining ≤ 0
      · rw [if_pos hrem] at hc
        exact Or.inl (by linarith)
      · rw [if_neg hrem] at hc
        rcases le_total (s.remaining - f.dt) 0 with hle | hle
        · rw [max_eq_left hle] at hc
          exact Or.inl (by linarith)
        · rw [max_eq_right hle] at hc
          refine Or.inr ?_
          simp only [List.map_cons, List.sum_cons]
          linarith

/-- Lemma stating `gameTick` commits the pending direction in every branch. -/
theorem gameTick_direction (draws : Nat → Cell) (s : EngineState) :
    (gameTick draws s).1.direction = s.nextDirection := by
  simp only [gameTick]
  split
  · rfl
  · split
    · rfl
    · split
      · rfl
      · rfl

/-! ### Claim theorems -/

/-- C1: from any playing state, a tick whose computed new head lies outside
the grid bounds sets the phase to `gameover` and emits exactly one
`gameover` event carrying the current score; no assumption about
self-collision is needed because the wall check runs first. -/
theorem c1_wall_collision_gameover (draws : Nat → Cell) (s : EngineState)
    (hplay : s.gameState = Phase.playing)
    (hoob : (moveCell s.nextDirection s.snake.headI).x < 0 ∨
        (s.gridW : Int) ≤ (moveCell s.nextDirection s.snake.headI).x ∨
        (moveCell s.nextDirection s.snake.headI).y < 0 ∨
        (s.gridH : Int) ≤ (moveCell s.nextDirection s.snake.headI).y) :
    (gameTick draws s).1.gameState = Phase.gameover ∧
      (gameTick draws s).2 = [Event.gameover s.score] := by
  rw [gameTick_wall draws s hoob]
  exact ⟨rfl, rfl⟩

theorem c1_wall_collision_gameover_witness :
    sampleWall.gameState = Phase.playing ∧
    ((moveCell sampleWall.nextDirection sampleWall.snake.headI).x < 0 ∨
      (sampleWall.gridW : Int) ≤ (moveCell sampleWall.nextDirection sampleWall.snake.headI).x ∨
      (moveCell sampleWall.nextDirection sampleWall.snake.headI).y < 0 ∨
      (sampleWall.gridH : Int) ≤ (moveCell sampleWall.nextDirection sampleWall.snake.headI).y) ∧
    ((gameTick sampleDraws sampleWall).1.gameState = Phase.gameover ∧
      (gameTick sampleDraws sampleWall).2 = [Event.gameover 3]) :=
  ⟨rfl, by decide, c1_wall_collision_gameover sampleDraws sampleWall rfl (by decide)⟩

/-- C10: a tick from a playing state that ends in `gameover` (wall or self
collision) leaves the snake body, score, food cell, tick interval and
pending direction exactly as they were; only the phase changes and the
committed direction is updated from the pending buffer. -/
theorem c10_gameover_tick_frame (draws : Nat → Cell) (s : EngineState)
    (hplay : s.gameState = Phase.playing)
    (hgo : (gameTick draws s).1.gameState = Phase.gameover) :
    (gameTick draws s).1.snake = s.snake ∧
    (gameTick draws s).1.score = s.score ∧
    (gameTick draws s).1.food = s.food ∧
    (gameTick draws s).1.currentTickMs = s.currentTickMs ∧
    (gameTick draws s).1.nextDirection = s.nextDirection ∧
    (gameTick draws s).1.direction = s.nextDirection ∧
    (gameTick draws s).2 = [Event.gameover s.score] := by
  by_cases hw : (moveCell s.nextDirection s.snake.headI).x < 0 ∨
      (s.gridW : Int) ≤ (moveCell s.nextDirection s.snake.headI).x ∨
      (moveCell s.nextDirection s.snake.headI).y < 0 ∨
      (s.gridH : Int) ≤ (moveCell s.nextDirection s.snake.headI).y
  · rw [gameTick_wall draws s hw]
    exact ⟨rfl, rfl, rfl, rfl, rfl, rfl, rfl⟩
  · by_cases hself : isOnSnake s.snake (moveCell s.nextDirection s.snake.headI) = true
    · rw [gameTick_self draws s hw hself]
      exact ⟨rfl, rfl, rfl, rfl, rfl, rfl, rfl⟩
    · exfalso
      have hb : isOnSnake s.snake (moveCell s.nextDirection s.snake.headI) = false :=
        Bool.not_eq_true _ |>.mp hself
      rcases hfood : s.food with _ | f
      · rw [gameTick_move draws s hw hb
          (fun f hf => absurd (hfood ▸ hf) (by simp))] at hgo
        have h2 : s.gameState = Phase.gameover := hgo
        rw [hplay] at h2
        exact absurd h2 (by decide)
      · by_cases hhit : moveCell s.nextDirection s.snake.headI = f
        · rw [gameTick_eat draws s f hw hb hfood hhit] at hgo
          have h2 : s.gameState = Phase.gameover := hgo
          rw [hplay] at h2
          exact absurd h2 (by decide)
        · rw [gameTick_move draws s hw hb
            (fun g hg => by rw [hfood] at hg; exact (Option.some_inj.mp hg) ▸ hhit)] at hgo
          have h2 : s.gameState = Phase.gameover := hgo
          rw [hplay] at h2
          exact absurd h2 (by decide)

theorem c10_gameover_tick_frame_witness :
    sampleWall.gameState = Phase.playing ∧
    (gameTick sampleDraws sampleWall).1.gameState = Phase.gameover ∧
    ((gameTick sampleDraws sampleWall).1.snake = sampleWall.snake ∧
      (gameTick sampleDraws sampleWall).1.score = sampleWall.score ∧
      (gameTick sampleDraws sampleWall).1.food = sampleWall.food ∧
      (gameTick sampleDraws sampleWall).1.currentTickMs = sampleWall.currentTickMs ∧
      (gameTick sampleDraws sampleWall).1.nextDirection = sampleWall.nextDirection ∧
      (gameTick sampleDraws sampleWall).1.direction = sampleWall.nextDirection ∧
      (gameTick sampleDraws sampleWall).2 = [Event.gameover sampleWall.score]) :=
  ⟨rfl, by decide, c10_gameover_tick_frame sampleDraws sampleWall rfl (by decide)⟩

/-- C6: on a tick that neither hits a wall nor the body, eating (new head on
the food cell) increases the score by exactly 1 and the length by exactly 1
(head prepended, tail kept); not eating keeps the length and the score (head
prepended, tail cell removed). -/
theorem c6_growth_and_score (draws : Nat → Cell) (s : EngineState)
    (hne : s.snake ≠ [])
    (hw : ¬((moveCell s.nextDirection s.snake.headI).x < 0 ∨
        (s.gridW : Int) ≤ (moveCell s.nextDirection s.snake.headI).x ∨
        (moveCell s.nextDirection s.snake.headI).y < 0 ∨
        (s.gridH : Int) ≤ (moveCell s.nextDirection s.snake.headI).y))
    (hself : isOnSnake s.snake (moveCell s.nextDirection s.snake.headI) = false) :
    (∀ f, s.food = some f → moveCell s.nextDirection s.snake.headI = f →
      (gameTick draws s).1.score = s.score + 1 ∧
      (gameTick draws s).1.snake.length = s.snake.length + 1 ∧
      (gameTick draws s).1.snake = moveCell s.nextDirection s.snake.headI :: s.snake) ∧
    ((∀ f, s.food = some f → moveCell s.nextDirection s.snake.headI ≠ f) →
      (gameTick draws s).1.score = s.score ∧
      (gameTick draws s).1.snake.length = s.snake.length ∧
      (gameTick draws s).1.snake =
        (moveCell s.nextDirection s.snake.headI :: s.snake).dropLast) := by
  constructor
  · intro f hf hhit
    rw [gameTick_eat draws s f hw hself hf hhit]
    exact ⟨rfl, by simp, rfl⟩
  · intro hmiss
    rw [gameTick_move draws s hw hself hmiss]
    refine ⟨rfl, ?_, rfl⟩
    simp only [List.length_dropLast, List.length_cons]
    omega

theorem c6_growth_and_score_witness :
    sampleEat.snake ≠ [] ∧
    ((gameTick sampleDraws sampleEat).1.score = 5 ∧
      (gameTick sampleDraws sampleEat).1.snake.length = 4) ∧
    ((gameTick sampleDraws sampleMove).1.score = 4 ∧
      (gameTick sampleDraws sampleMove).1.snake.length = 3) := by
  refine ⟨by decide, ?_, ?_⟩
  · have h := (c6_growth_and_score sampleDraws sampleEat (by decide) (by decide)
      (by decide)).1 ⟨6, 5⟩ rfl (by decide)
    exact ⟨h.1, h.2.1⟩
  · have h := (c6_growth_and_score sampleDraws sampleMove (by decide) (by decide)
      (by decide)).2 (by decide)
    exact ⟨h.1, h.2.1⟩

/-- Helper: with committed direction `right`, a `setDirection('left')` call
is a no-op in every phase. -/
theorem setDirection_left_of_right (s : EngineState) (hd : s.direction = Dir.right) :
    setDirection Dir.left s = s := by
  unfold setDirection
  by_cases hp : s.gameState ≠ Phase.playing
  · rw [if_pos hp]
  · rw [if_neg hp, if_pos (by rw [hd]; rfl)]

/-- C4: `setDirection` is a no-op outside `playing`; during `playing` it is
a no-op when the argument is the exact opposite of the committed direction
and otherwise only updates the pending direction; consequently with
committed direction `right`, `setDirection('left')` never changes the
direction committed on the next tick. -/
theorem c4_setDirection :
    (∀ (d : Dir) (s : EngineState), s.gameState ≠ Phase.playing →
      setDirection d s = s) ∧
    (∀ (d : Dir) (s : EngineState), s.gameState = Phase.playing →
      d = opposite s.direction → setDirection d s = s) ∧
    (∀ (d : Dir) (s : EngineState), s.gameState = Phase.playing →
      d ≠ opposite s.direction →
      setDirection d s = { s with nextDirection := d }) ∧
    (∀ (s : EngineState), s.direction = Dir.right → setDirection Dir.left s = s) ∧
    (∀ (draws : Nat → Cell) (s : EngineState), s.direction = Dir.right →
      (gameTick draws (setDirection Dir.left s)).1.direction = s.nextDirection) := by
  refine ⟨?_, ?_, ?_, ?_, ?_⟩
  · intro d s h
    unfold setDirection
    rw [if_pos h]
  · intro d s hp he
    unfold setDirection
    rw [if_neg (not_not_intro hp), if_pos he]
  · intro d s hp he
    unfold setDirection
    rw [if_neg (not_not_intro hp), if_neg he]
  · exact setDirection_left_of_right
  · intro draws s hd
    rw [setDirection_left_of_right s hd]
    exact gameTick_direction draws s

theorem c4_setDirection_witness :
    (samplePaused.gameState ≠ Phase.playing ∧
      setDirection Dir.up samplePaused = samplePaused) ∧
    (sampleEat.gameState = Phase.playing ∧ Dir.left = opposite sampleEat.direction ∧
      setDirection Dir.left sampleEat = sampleEat) ∧
    (Dir.up ≠ opposite sampleEat.direction ∧
      setDirection Dir.up sampleEat = { sampleEat with nextDirection := Dir.up }) ∧
    (gameTick sampleDraws (setDirection Dir.left sampleEat)).1.direction =
      sampleEat.nextDirection :=
  ⟨⟨by decide, c4_setDirection.1 Dir.up samplePaused (by decide)⟩,
   ⟨rfl, by decide, c4_setDirection.2.1 Dir.left sampleEat rfl (by decide)⟩,
   ⟨by decide, c4_setDirection.2.2.1 Dir.up sampleEat rfl (by decide)⟩,
   c4_setDirection.2.2.2.2 sampleDraws sampleEat rfl⟩

/-- C5: the tick interval is `max(60, 150 − floor(score / 5) × 10)`, never
below 60 (score 0 ↦ 150, 5 ↦ 140, 45 ↦ 60); `gameTick` recomputes it only
when food is eaten (ticks emitting no `eat` event leave it unchanged), and
`reset` restores the base interval 150. -/
theorem c5_difficulty :
    (tickInterval 0 = 150 ∧ tickInterval 5 = 140 ∧ tickInterval 45 = 60) ∧
    (∀ n : Nat, 60 ≤ tickInterval n) ∧
    (∀ n : Nat, tickInterval n = max 60 (150 - ((n / 5 : Nat) : Int) * 10)) ∧
    (∀ (draws : Nat → Cell) (s : EngineState) (f : Cell),
      ¬((moveCell s.nextDirection s.snake.headI).x < 0 ∨
        (s.gridW : Int) ≤ (moveCell s.nextDirection s.snake.headI).x ∨
        (moveCell s.nextDirection s.snake.headI).y < 0 ∨
        (s.gridH : Int) ≤ (moveCell s.nextDirection s.snake.headI).y) →
      isOnSnake s.snake (moveCell s.nextDirection s.snake.headI) = false →
      s.food = some f → moveCell s.nextDirection s.snake.headI = f →
      (gameTick draws s).1.currentTickMs = tickInterval (s.score + 1)) ∧
    (∀ (draws : Nat → Cell) (s : EngineState),
      (∀ n, Event.eat n ∉ (gameTick draws s).2) →
      (gameTick draws s).1.currentTickMs = s.currentTickMs) ∧
    (∀ (draws : Nat → Cell) (s : EngineState),
      (resetSnake draws s).currentTickMs = 150) := by
  refine ⟨by refine ⟨?_, ?_, ?_⟩ <;> decide, ?_, fun n => rfl, ?_, ?_, fun draws s => rfl⟩
  · intro n
    unfold tickInterval TICK_MIN_MS
    exact le_max_left _ _
  · intro draws s f hw hself hf hhit
    rw [gameTick_eat draws s f hw hself hf hhit]
  · intro draws s hno
    by_cases hw : (moveCell s.nextDirection s.snake.headI).x < 0 ∨
        (s.gridW : Int) ≤ (moveCell s.nextDirection s.snake.headI).x ∨
        (moveCell s.nextDirection s.snake.headI).y < 0 ∨
        (s.gridH : Int) ≤ (moveCell s.nextDirection s.snake.headI).y
    · rw [gameTick_wall draws s hw]
    · by_cases hself : isOnSnake s.snake (moveCell s.nextDirection s.snake.headI) = true
      · rw [gameTick_self draws s hw hself]
      · have hb : isOnSnake s.snake (moveCell s.nextDirection s.snake.headI) = false :=
          Bool.not_eq_true _ |>.mp hself
        rcases hfood : s.food with _ | f
        · rw [gameTick_move draws s hw hb (fun f hf => absurd (hfood ▸ hf) (by simp))]
        · by_cases hhit : moveCell s.nextDirection s.snake.headI = f
          · exfalso
            apply hno (s.score + 1)
            rw [gameTick_eat draws s f hw hb hfood hhit]
            exact List.mem_singleton.mpr rfl
          · rw [gameTick_move draws s hw hb
              (fun g hg => by rw [hfood] at hg; exact (Option.some_inj.mp hg) ▸ hhit)]

theorem c5_difficulty_witness :
    (60 : Int) ≤ tickInterval 7 ∧
    (gameTick sampleDraws sampleEat).1.currentTickMs = tickInterval 5 ∧
    (gameTick sampleDraws sampleWall).1.currentTickMs = sampleWall.currentTickMs ∧
    (resetSnake sampleDraws samplePaused).currentTickMs = 150 :=
  ⟨c5_difficulty.2.1 7,
   c5_difficulty.2.2.2.1 sampleDraws sampleEat ⟨6, 5⟩ (by decide) (by decide) rfl
     (by decide),
   c5_difficulty.2.2.2.2.1 sampleDraws sampleWall (by
     intro n hn
     have h2 : (gameTick sampleDraws sampleWall).2 = [Event.gameover 3] := by decide
     rw [h2] at hn
     simp at hn),
   c5_difficulty.2.2.2.2.2 sampleDraws samplePaused⟩

/-- C2 counterexample: an eating tick on a 10×10 grid with a post-growth
snake of 4 cells (ample spare capacity) whose `gridW × gridH` random draws
all land on the snake; the fallback accepts the last draw, so the spawned
food coincides with a snake cell, refuting the claim as stated. -/
theorem c2_counterexample :
    (gameTick c2Draws c2State).2 = [Event.eat 1] ∧
    (gameTick c2Draws c2State).1.snake.length < c2State.gridW * c2State.gridH ∧
    (gameTick c2Draws c2State).1.food = some ⟨6, 5⟩ ∧
    (⟨6, 5⟩ : Cell) ∈ (gameTick c2Draws c2State).1.snake := by
  have heat := gameTick_eat c2Draws c2State ⟨6, 5⟩ (by decide) (by decide) rfl
    (by decide)
  have hpost : moveCell c2State.nextDirection c2State.snake.headI :: c2State.snake =
      [⟨6, 5⟩, ⟨5, 5⟩, ⟨4, 5⟩, ⟨3, 5⟩] := by decide
  have hspawn : spawnFood [⟨6, 5⟩, ⟨5, 5⟩, ⟨4, 5⟩, ⟨3, 5⟩] 10 10 c2Draws = ⟨6, 5⟩ :=
    spawnFood_exhaust [⟨6, 5⟩, ⟨5, 5⟩, ⟨4, 5⟩, ⟨3, 5⟩] 10 10 c2Draws (by decide)
      (fun i _ => by simp only [c2Draws]; decide)
  rw [heat, hpost]
  refine ⟨rfl, by decide, ?_, by decide⟩
  show some (spawnFood [⟨6, 5⟩, ⟨5, 5⟩, ⟨4, 5⟩, ⟨3, 5⟩] c2State.gridW c2State.gridH
    c2Draws) = some ⟨6, 5⟩
  rw [show c2State.gridW = 10 from rfl, show c2State.gridH = 10 from rfl, hspawn]

/-- C2 (amended): on an eating tick, whenever at least one of the tick's
`gridW × gridH` random draws lands off the post-growth snake (spare grid
capacity alone only makes this probable, not certain), the newly spawned
food cell does not equal any cell of the post-growth snake. -/
theorem c2_spawn_off_snake (draws : Nat → Cell) (s : EngineState) (f : Cell)
    (hw : ¬((moveCell s.nextDirection s.snake.headI).x < 0 ∨
        (s.gridW : Int) ≤ (moveCell s.nextDirection s.snake.headI).x ∨
        (moveCell s.nextDirection s.snake.headI).y < 0 ∨
        (s.gridH : Int) ≤ (moveCell s.nextDirection s.snake.headI).y))
    (hself : isOnSnake s.snake (moveCell s.nextDirection s.snake.headI) = false)
    (hf : s.food = some f) (hhit : moveCell s.nextDirection s.snake.headI = f)
    (hfree : ∃ i, i < s.gridW * s.gridH ∧
      isOnSnake (moveCell s.nextDirection s.snake.headI :: s.snake) (draws i) = false) :
    ∃ c, (gameTick draws s).1.food = some c ∧ c ∉ (gameTick draws s).1.snake := by
  rw [gameTick_eat draws s f hw hself hf hhit]
  refine ⟨_, rfl, ?_⟩
  rw [← isOnSnake_eq_false_iff]
  exact spawnFood_not_on_snake _ _ _ _ hfree

theorem c2_spawn_off_snake_witness :
    sampleEat.food = some ⟨6, 5⟩ ∧
    (∃ i, i < sampleEat.gridW * sampleEat.gridH ∧
      isOnSnake (moveCell sampleEat.nextDirection sampleEat.snake.headI ::
        sampleEat.snake) (sampleDraws i) = false) ∧
    ∃ c, (gameTick sampleDraws sampleEat).1.food = some c ∧
      c ∉ (gameTick sampleDraws sampleEat).1.snake :=
  ⟨rfl, ⟨0, by decide, by decide⟩,
   c2_spawn_off_snake sampleDraws sampleEat ⟨6, 5⟩ (by decide) (by decide) rfl
     (by decide) ⟨0, by decide, by decide⟩⟩

/-- C8: `spawnFood` always terminates with one of its first
`gridW × gridH` draws (so at most that many cells are drawn), and when every
draw up to the cap is occupied by the snake — as for a snake filling the
whole grid — it accepts the last-drawn, possibly occupied, cell. -/
theorem c8_spawnFood_terminates (snake : List Cell) (gridW gridH : Nat)
    (draws : Nat → Cell) (h : 1 ≤ gridW * gridH) :
    (∃ k, k < gridW * gridH ∧ spawnFood snake gridW gridH draws = draws k) ∧
    ((∀ i, i < gridW * gridH → isOnSnake snake (draws i) = true) →
      spawnFood snake gridW gridH draws = draws (gridW * gridH - 1)) :=
  ⟨spawnFood_exists snake gridW gridH draws h,
   fun hall => spawnFood_exhaust snake gridW gridH draws h hall⟩

theorem c8_spawnFood_terminates_witness :
    1 ≤ 2 * 2 ∧
    ((∃ k, k < 2 * 2 ∧ spawnFood c8Snake 2 2 c8Draws = c8Draws k) ∧
      ((∀ i, i < 2 * 2 → isOnSnake c8Snake (c8Draws i) = true) →
        spawnFood c8Snake 2 2 c8Draws = c8Draws (2 * 2 - 1))) :=
  ⟨by decide, c8_spawnFood_terminates c8Snake 2 2 c8Draws (by decide)⟩

/-- C7: in every state reachable from a freshly reset engine via the
engine's operations, the snake is non-empty, and while the phase is not
`gameover` its cells are pairwise distinct. -/
theorem c7_reachable_invariant {s : EngineState} (h : Reachable s) :
    1 ≤ s.snake.length ∧ (s.gameState ≠ Phase.gameover → s.snake.Nodup) :=
  ⟨(reachable_inv h).1, fun _ => (reachable_inv h).2⟩

theorem c7_reachable_invariant_witness :
    1 ≤ (resetSnake sampleDraws c7Base).snake.length ∧
    ((resetSnake sampleDraws c7Base).gameState ≠ Phase.gameover →
      (resetSnake sampleDraws c7Base).snake.Nodup) :=
  c7_reachable_invariant (Reachable.init sampleDraws c7Base)

theorem runShake_append (l1 l2 : List Frame) (s : ShakeState) :
    runShake (l1 ++ l2) s = runShake l2 (runShake l1 s) := by
  simp [runShake, List.foldl_append]

/-- C9: for every starting amplitude and duration, once the accumulated
elapsed shake time reaches the duration, the offset is exactly `(0, 0)` on
every subsequent frame; and on any frame of an active shake the offset's
components are bounded in magnitude by the amplitude scaled by the
linearly-decaying remaining/duration ratio. -/
theorem c9_shake :
    (∀ (d a : ℚ) (s0 : ShakeState) (fs1 : List Frame) (f : Frame) (fs2 : List Frame),
      (∀ g ∈ fs1, 0 ≤ g.dt) → d ≤ (fs1.map Frame.dt).sum →
      (runShake (fs1 ++ f :: fs2) (startShake d a s0)).x = 0 ∧
        (runShake (fs1 ++ f :: fs2) (startShake d a s0)).y = 0) ∧
    (∀ (rx ry dt : ℚ) (s : ShakeState), |rx| ≤ 1 → |ry| ≤ 1 →
      0 ≤ s.amplitude → 0 < s.duration → 0 < s.remaining →
      |(updateShake rx ry dt s).x| ≤
          s.amplitude * ((updateShake rx ry dt s).remaining / s.duration) ∧
        |(updateShake rx ry dt s).y| ≤
          s.amplitude * ((updateShake rx ry dt s).remaining / s.duration)) := by
  constructor
  · intro d a s0 fs1 f fs2 hdt hsum
    have h1 : (runShake fs1 (startShake d a s0)).remaining ≤ 0 := by
      rcases runShake_remaining fs1 (startShake d a s0) hdt with hc | hc
      · exact hc
      · have hd : (startShake d a s0).remaining = d := rfl
        rw [hd] at hc
        linarith
    rw [runShake_append, runShake_cons, updateShake_expired f.rx f.ry f.dt _ h1]
    have h3 := runShake_stays_zero fs2
      { runShake fs1 (startShake d a s0) with x := 0, y := 0 } h1 rfl rfl
    exact ⟨h3.2.1, h3.2.2⟩
  · intro rx ry dt s hrx hry hamp hdur hrem
    have hact : ¬s.remaining ≤ 0 := not_le.mpr hrem
    rw [updateShake_active rx ry dt s hact]
    dsimp only
    have hA : 0 ≤ s.amplitude * (max 0 (s.remaining - dt) / s.duration) :=
      mul_nonneg hamp (div_nonneg (le_max_left 0 _) hdur.le)
    constructor
    · rw [abs_mul]
      calc |rx| * |s.amplitude * (max 0 (s.remaining - dt) / s.duration)|
          ≤ 1 * |s.amplitude * (max 0 (s.remaining - dt) / s.duration)| :=
            mul_le_mul_of_nonneg_right hrx (abs_nonneg _)
        _ = s.amplitude * (max 0 (s.remaining - dt) / s.duration) := by
            rw [one_mul, abs_of_nonneg hA]
    · rw [abs_mul]
      calc |ry| * |s.amplitude * (max 0 (s.remaining - dt) / s.duration)|
          ≤ 1 * |s.amplitude * (max 0 (s.remaining - dt) / s.duration)| :=
            mul_le_mul_of_nonneg_right hry (abs_nonneg _)
        _ = s.amplitude * (max 0 (s.remaining - dt) / s.duration) := by
            rw [one_mul, abs_of_nonneg hA]

theorem c9_shake_witness :
    ((∀ g ∈ c9fs1, 0 ≤ g.dt) ∧ (2 : ℚ) ≤ (c9fs1.map Frame.dt).sum ∧
      ((runShake (c9fs1 ++ c9f :: c9fs2) (startShake 2 3 c9s0)).x = 0 ∧
        (runShake (c9fs1 ++ c9f :: c9fs2) (startShake 2 3 c9s0)).y = 0)) ∧
    (|(1 : ℚ)/2| ≤ 1 ∧ |(-1 : ℚ)/2| ≤ 1 ∧ (0 : ℚ) ≤ c9sb.amplitude ∧
      (0 : ℚ) < c9sb.duration ∧ (0 : ℚ) < c9sb.remaining ∧
      (|(updateShake (1/2) (-1/2) 1 c9sb).x| ≤
          c9sb.amplitude * ((updateShake (1/2) (-1/2) 1 c9sb).remaining / c9sb.duration) ∧
        |(updateShake (1/2) (-1/2) 1 c9sb).y| ≤
          c9sb.amplitude * ((updateShake (1/2) (-1/2) 1 c9sb).remaining / c9sb.duration))) := by
  refine ⟨⟨?_, ?_, c9_shake.1 2 3 c9s0 c9fs1 c9f c9fs2 ?_ ?_⟩,
    ⟨?_, ?_, ?_, ?_, ?_, c9_shake.2 (1/2) (-1/2) 1 c9sb ?_ ?_ ?_ ?_ ?_⟩⟩ <;>
    first
    | decide
    | norm_num [abs_le, c9fs1, c9sb, List.sum_cons, List.sum_nil]

/-- C3 is refuted by the code: `getState` copies the *reference* to the
internal snake array into the snapshot (`snake: snake`), so the snapshot
aliases the engine's container, and mutating the array through the snapshot
(here appending a cell) changes the snake the engine subsequently reads —
the opposite of the claimed copy-on-read behaviour. -/
theorem c3_getState_aliases_internal_snake :
    (∀ e : EngineRefs, (getState e).snakeAddr = e.snakeAddr) ∧
    engineSnake (c3Store.write (getState c3Engine).snakeAddr
        (engineSnake c3Store c3Engine ++ [⟨9, 9⟩])) c3Engine ≠
      engineSnake c3Store c3Engine := by
  refine ⟨fun e => rfl, ?_⟩
  decide

end Snake
